import Mathlib

/-!
Verification of the EDRH journal ingestion engine against its
natural-language specification.

The definitions below are a shallow embedding of the Python sources:

* `splitLines`, `MState`, `tick`, `runTicks`, `bootState` embed the
  byte-level tail cursor of `services/journal_monitor.py`
  (`JournalMonitor._monitor_loop` / `_read_new_content`): file content is a
  `List Char`, a poll tick observes the current content and mtime, and the
  delivered values are the raw lines handed to
  `JournalMonitor._process_journal_line` (Python `readlines`, which keeps
  the line terminator and also yields a trailing partial line).
* `JMState`, `jmBootstrap`, `jmTick` embed the same loop of
  `core/journal_manager.py` (`JournalManager._monitor_thread_func` /
  `_process_journal_events`) for the steady state in which the active file
  does not change identity.
* `Event`, `JLine`, `processLineF`, `extractCommanderName`,
  `extractSystemInfo`, `findLatestJournalAndPos`, `findLatestJournal`
  embed the record-level processing: JSON lines are modelled as records
  carrying exactly the fields the Python code inspects, and the raw
  substring checks (for example checking that a line contains the text
  `event Commander`) are modelled as boolean tags on the line.
-/

namespace EDRH

/-! ## Byte-level model: `readlines`-style line splitting (keepends) -/

/-- Helper for `splitLines`: `acc` holds the reversed characters of the
current (unterminated) line. Mirrors how Python `readlines` groups the
remaining characters of a file into lines that keep their terminator,
with a final unterminated fragment returned as a last line. -/
def splitLinesAux : List Char → List Char → List (List Char)
  | acc, [] => if acc = [] then [] else [acc.reverse]
  | acc, c :: cs =>
    if c = '\n' then (acc.reverse ++ [c]) :: splitLinesAux [] cs
    else splitLinesAux (c :: acc) cs

/-- Python `f.readlines()` on the remaining content: split into lines,
each keeping its trailing newline; a trailing fragment with no newline is
returned as a final (partial) line. -/
def splitLines (cs : List Char) : List (List Char) :=
  splitLinesAux [] cs

/-- Whether a character list ends with a newline. -/
def endsNl : List Char → Bool
  | [] => false
  | [c] => c = '\n'
  | _ :: c :: cs => endsNl (c :: cs)

/-! ## Byte-level model: the `JournalMonitor` tail cursor -/

/-- The mutable cursor of `JournalMonitor._monitor_loop`: the loop-local
`last_size` / `last_mtime` pair and the instance field
`self.current_position`. -/
structure MState where
  lastSize : Nat
  lastMtime : Nat
  pos : Nat
deriving DecidableEq, Repr

/-- One iteration of the `while` loop of `JournalMonitor._monitor_loop`
for the steady state in which `_find_latest_journal` keeps returning the
active file: if neither size nor mtime changed, nothing is read;
otherwise `_read_new_content` opens the file, seeks to
`current_position`, calls `readlines` (empty past end of file) and sets
`current_position = f.tell()` (which stays at the seek position when that
position lies beyond end of file). The returned list is the list of raw
lines handed to `_process_journal_line`. -/
def tick (c : List Char) (m : Nat) (s : MState) : List (List Char) × MState :=
  if c.length = s.lastSize ∧ m = s.lastMtime then ([], s)
  else (splitLines (c.drop s.pos), ⟨c.length, m, max s.pos c.length⟩)

/-- Run the monitor over a sequence of observations (content, mtime),
concatenating the delivered lines of every tick. -/
def runTicks (s : MState) : List (List Char × Nat) → List (List Char)
  | [] => []
  | (c, m) :: obs => (tick c m s).1 ++ runTicks (tick c m s).2 obs

/-- The cursor state right after the bootstrap block of
`JournalMonitor._monitor_loop`: `current_position` is set to the size of
the initial file, while the loop-local `last_size` and `last_mtime` are
still their initial `0`. -/
def bootState (c0 : List Char) : MState :=
  ⟨0, 0, c0.length⟩

/-- Cumulative observations produced by a list of appended chunks: the
k-th tick observes the concatenation of the first k chunks, with a fresh
mtime for every tick. -/
def cumObs : List Char → Nat → List (List Char) → List (List Char × Nat)
  | _, _, [] => []
  | acc, t, ch :: rest => (acc ++ ch, t) :: cumObs (acc ++ ch) (t + 1) rest

/-! ## Byte-level model: the `JournalManager` loop -/

/-- The loop-local `last_size` / `last_mtime` of
`JournalManager._monitor_thread_func`. -/
structure JMState where
  lastSize : Nat
  lastMtime : Nat
deriving DecidableEq, Repr

/-- State after the bootstrap block of
`JournalManager._monitor_thread_func`: an initial journal is chosen and
remembered, but `last_size` and `last_mtime` keep their initial `0`. -/
def jmBootstrap : JMState := ⟨0, 0⟩

/-- One iteration of the `while` loop of
`JournalManager._monitor_thread_func` for the steady state in which
`get_latest_journal_file` keeps returning the active file: if
`current_size > last_size or current_mtime > last_mtime`, then
`_process_journal_events(last_journal, last_size)` seeks to `last_size`
and iterates over the remaining lines (keepends, trailing partial line
included), after which both stats are updated. -/
def jmTick (c : List Char) (m : Nat) (s : JMState) : List (List Char) × JMState :=
  if s.lastSize < c.length ∨ s.lastMtime < m then
    (splitLines (c.drop s.lastSize), ⟨c.length, m⟩)
  else ([], s)

/-! ## Record-level model: journal lines and events -/

/-- A JSON value stored under the StarPos key: either a JSON array of
numbers (coordinates are only stored and compared, never computed with,
so their numeric type is opaque and modelled by `Int`) or any non-array
value, which fails the Python `isinstance(coords, list)` check. -/
inductive JVal where
  | arr (xs : List Int)
  | nonArr
deriving DecidableEq, Repr

/-- A parsed journal event: exactly the keys the Python code looks up
(`event`, `Commander`, `Name`, `StarSystem`, `StarPos`), each optional. -/
structure Event where
  event : Option String
  commander : Option String
  name : Option String
  starSystem : Option String
  starPos : Option JVal
deriving DecidableEq, Repr

/-- One raw line of a journal file, as observed by the Python code:
whether `line.strip()` is empty, whether the raw text contains the
identity substrings (`event Commander` / `event LoadGame`), whether it
contains the location substrings (`event FSDJump` / `event Location` /
`event CarrierJump`), and the result of `json.loads` (`none` on a
`JSONDecodeError`). -/
structure JLine where
  blank : Bool
  hasIdTag : Bool
  hasLocTag : Bool
  parse : Option Event
deriving DecidableEq, Repr

/-- The event types `JournalMonitor._process_journal_line` treats as
location-changing: FSDJump, Location, CarrierJump. -/
def isLocEvent (t : String) : Bool :=
  t = "FSDJump" || t = "Location" || t = "CarrierJump"

/-- The derived state mutated by `JournalMonitor`: `self.commander_name`,
`self.system_name` and `self.star_pos`. -/
structure RState where
  commander : String
  systemName : String
  starPos : Option (List Int)
deriving DecidableEq, Repr

/-- A callback invocation made by `JournalMonitor._process_journal_line`:
either the "system" notification (with the just-updated name, position
and event type) or the raw "event" notification. -/
inductive Notif where
  | system (name : String) (pos : Option (List Int)) (evType : String)
  | raw (evType : String) (ev : Event)
deriving DecidableEq, Repr

/-- Sequential callback invocation with exceptions: callbacks are invoked
in order; a callback for which `fails` holds raises, and because
`_process_journal_line` catches exceptions only at function level, the
remaining callbacks of the same line are not invoked. The returned list
is the list of callbacks actually invoked. -/
def invokeAll (fails : Notif → Bool) : List Notif → List Notif
  | [] => []
  | n :: ns => if fails n then [n] else n :: invokeAll fails ns

/-- Model of `JournalMonitor._process_journal_line`, parameterised by the set of
callback invocations that raise: skip blank lines, drop lines that fail
to parse, drop events with a missing or empty `event` field; for
location-changing events first assign `self.system_name` (when
`StarSystem` is present) and `self.star_pos` (when `StarPos` is a
3-element array), then invoke the "system" callback followed by the raw
"event" callback; for every other event type invoke only the raw
callback. State assignments precede the callbacks, so they survive a
raising callback. -/
def processLineF (fails : Notif → Bool) (st : RState) (l : JLine) :
    RState × List Notif :=
  if l.blank then (st, [])
  else
    match l.parse with
    | none => (st, [])
    | some ev =>
      match ev.event with
      | none => (st, [])
      | some t =>
        if t = "" then (st, [])
        else if isLocEvent t then
          let st1 : RState :=
            { st with
              systemName :=
                match ev.starSystem with
                | some s => s
                | none => st.systemName,
              starPos :=
                match ev.starPos with
                | some (.arr xs) => if xs.length = 3 then some xs else st.starPos
                | some .nonArr => st.starPos
                | none => st.starPos }
          (st1, invokeAll fails [.system st1.systemName st1.starPos t, .raw t ev])
        else (st, invokeAll fails [.raw t ev])

/-- Model of `_process_journal_line` when no callback raises. -/
def processLine (st : RState) (l : JLine) : RState × List Notif :=
  processLineF (fun _ => false) st l

/-- The loop of `JournalMonitor._read_new_content` over the freshly read
lines: each line is processed in order; exceptions are caught inside
`_process_journal_line`, so every line is processed. Returns the final
state and all invoked callbacks in order. -/
def processAllF (fails : Notif → Bool) (st : RState) :
    List JLine → RState × List Notif
  | [] => (st, [])
  | l :: ls =>
    let p := processLineF fails st l
    let q := processAllF fails p.1 ls
    (q.1, p.2 ++ q.2)

/-! ## Record-level model: bootstrap extraction -/

/-- Model of `JournalMonitor._extract_commander_name`: scan the file's lines for
the first one carrying an identity tag; parse it (a `JSONDecodeError`
escapes the per-file `try`, aborting the whole scan with "Unknown");
return its `Commander` field, else its `Name` field, else keep
scanning. -/
def extractCommanderName : List JLine → String
  | [] => "Unknown"
  | l :: ls =>
    if l.hasIdTag then
      match l.parse with
      | none => "Unknown"
      | some ev =>
        match ev.commander with
        | some c => c
        | none =>
          match ev.name with
          | some n => n
          | none => extractCommanderName ls
    else extractCommanderName ls

/-- Model of `JournalManager.extract_commander_name`: parse every line (a parse
failure only skips that line); a `Commander` event with a `Name` field
returns the name, a `LoadGame` event with a `Commander` field returns the
commander. -/
def extractCommanderNameJM : List JLine → String
  | [] => "Unknown"
  | l :: ls =>
    match l.parse with
    | none => extractCommanderNameJM ls
    | some ev =>
      match ev.event with
      | some "Commander" =>
        match ev.name with
        | some n => n
        | none => extractCommanderNameJM ls
      | some "LoadGame" =>
        match ev.commander with
        | some c => c
        | none => extractCommanderNameJM ls
      | _ => extractCommanderNameJM ls

/-- The name a line yields in `_extract_commander_name`: the `Commander`
field if present, else the `Name` field. -/
def evFirstName (ev : Event) : Option String :=
  match ev.commander with
  | some c => some c
  | none => ev.name

/-- Worker for `JournalMonitor._extract_system_info`: fold the
location-tagged lines, overwriting `system_name` whenever `StarSystem` is
present and `star_pos` whenever `StarPos` is a 3-element array; a parse
failure on a tagged line escapes the per-file `try`, returning whatever
was accumulated so far. -/
def extractSystemInfoAux (sys : Option String) (pos : Option (List Int)) :
    List JLine → Option String × Option (List Int)
  | [] => (sys, pos)
  | l :: ls =>
    if l.hasLocTag then
      match l.parse with
      | none => (sys, pos)
      | some ev =>
        extractSystemInfoAux
          (match ev.starSystem with
           | some s => some s
           | none => sys)
          (match ev.starPos with
           | some (.arr xs) => if xs.length = 3 then some xs else pos
           | some .nonArr => pos
           | none => pos) ls
    else extractSystemInfoAux sys pos ls

/-- Model of `JournalMonitor._extract_system_info`. -/
def extractSystemInfo (ls : List JLine) : Option String × Option (List Int) :=
  extractSystemInfoAux none none ls

/-! ## Record-level model: the rotation branch of the poll loops -/

/-- The new-file branch of `JournalMonitor._monitor_loop` (and of the
`monitor` closure in `App.start_monitoring`): on rotation the commander
name is re-extracted only when the stored one is still "Unknown". -/
def rotationCommanderUpdate (cmdr : String) (newFile : List JLine) : String :=
  if cmdr = "Unknown" then extractCommanderName newFile else cmdr

/-- The new-file branch of `JournalManager._monitor_thread_func`: the
commander name is re-extracted and stored whenever the extraction yields
something other than "Unknown". -/
def jmRotationCommanderUpdate (cmdr : String) (newFile : List JLine) : String :=
  if extractCommanderNameJM newFile ≠ "Unknown" then extractCommanderNameJM newFile
  else cmdr

/-! ## Record-level model: `App.find_latest_journal_and_pos` -/

/-- Worker for `App.find_latest_journal_and_pos`. The locals `last_sys`
and `last_pos` start unassigned but are initialised before the loop
(`last_sys, last_pos = None, None`); the local `coords` is only ever
assigned inside `if StarPos in d`, so `coords = none` here means the
name is still unbound. Evaluating `isinstance(coords, list)` while
unbound raises a `NameError`, which the inner
`except json.JSONDecodeError` does not catch; the outer
`except Exception` does, and the function then falls through to
`return None, None`. -/
def fljpAux (lastSys : Option String) (lastPos : Option (List Int))
    (coords : Option JVal) : List JLine → Option String × Option (List Int)
  | [] => (lastSys, lastPos)
  | l :: ls =>
    if l.hasLocTag then
      match l.parse with
      | none => fljpAux lastSys lastPos coords ls
      | some ev =>
        let sys2 : Option String :=
          match ev.starSystem with
          | some s => some s
          | none => lastSys
        let coords2 : Option JVal :=
          match ev.starPos with
          | some v => some v
          | none => coords
        match coords2 with
        | none => (none, none)
        | some v =>
          fljpAux sys2
            (match v with
             | .arr xs => if xs.length = 3 then some xs else lastPos
             | .nonArr => lastPos) (some v) ls
    else fljpAux lastSys lastPos coords ls

/-- Model of `App.find_latest_journal_and_pos` applied to the lines of a file. -/
def findLatestJournalAndPos (ls : List JLine) : Option String × Option (List Int) :=
  fljpAux none none none ls

/-! ## The log-source locator -/

/-- One candidate journal file, abstracted to the two attributes the
Python code orders by: the timestamp embedded in the filename (as parsed
by `list_sorted_journals`) and the filesystem modification time. -/
structure JFile where
  ts : Nat
  mtime : Nat
deriving DecidableEq, Repr

/-- Model of `JournalMonitor._find_latest_journal` and
`JournalManager.get_latest_journal_file`: sort the candidates by
`os.path.getmtime`, newest first (Python's sort is stable, so among equal
mtimes the first file in directory order wins), and return the head. -/
def findLatestJournal : List JFile → Option JFile
  | [] => none
  | f :: fs => some (fs.foldl (fun b g => if b.mtime < g.mtime then g else b) f)

/-- Model of the module-level `get_latest_journal_file` of `UI.py`, which
returns the head of `list_sorted_journals`: the pattern-matching files
are sorted as (embedded timestamp, path) pairs in descending order, so
the head is the file with the greatest timestamp embedded in the
filename. (For equal timestamps Python would fall back to path order;
the naming scheme makes embedded timestamps unique per run, and this
model does not carry paths, so ties go to directory order here.) -/
def uiLatestJournal : List JFile → Option JFile
  | [] => none
  | f :: fs => some (fs.foldl (fun b g => if b.ts < g.ts then g else b) f)

/-! ## Lemmas about line splitting -/

theorem splitLinesAux_cons_nl (acc cs : List Char) :
    splitLinesAux acc ('\n' :: cs) = (acc.reverse ++ ['\n']) :: splitLinesAux [] cs := by
  simp [splitLinesAux]

theorem splitLinesAux_cons_ne (acc cs : List Char) (c : Char) (hc : c ≠ '\n') :
    splitLinesAux acc (c :: cs) = splitLinesAux (c :: acc) cs := by
  simp [splitLinesAux, hc]

theorem splitLinesAux_append :
    ∀ (a : List Char), endsNl a = true → ∀ (acc b : List Char),
      splitLinesAux acc (a ++ b) = splitLinesAux acc a ++ splitLinesAux [] b
  | [], h, _, _ => by simp [endsNl] at h
  | [c], h, acc, b => by
      simp only [endsNl, decide_eq_true_eq] at h
      subst h
      change splitLinesAux acc ('\n' :: b)
        = splitLinesAux acc ('\n' :: ([] : List Char)) ++ splitLinesAux [] b
      rw [splitLinesAux_cons_nl, splitLinesAux_cons_nl]
      simp [splitLinesAux]
  | c :: c' :: cs, h, acc, b => by
      have h' : endsNl (c' :: cs) = true := h
      by_cases hc : c = '\n'
      · subst hc
        change splitLinesAux acc ('\n' :: ((c' :: cs) ++ b))
          = splitLinesAux acc ('\n' :: c' :: cs) ++ splitLinesAux [] b
        rw [splitLinesAux_cons_nl, splitLinesAux_cons_nl,
          splitLinesAux_append (c' :: cs) h' [] b, List.cons_append]
      · change splitLinesAux acc (c :: ((c' :: cs) ++ b))
          = splitLinesAux acc (c :: c' :: cs) ++ splitLinesAux [] b
        rw [splitLinesAux_cons_ne _ _ c hc, splitLinesAux_cons_ne _ _ c hc]
        exact splitLinesAux_append (c' :: cs) h' (c :: acc) b

theorem splitLines_append (a b : List Char) (h : endsNl a = true) :
    splitLines (a ++ b) = splitLines a ++ splitLines b :=
  splitLinesAux_append a h [] b

theorem splitLinesAux_no_newline :
    ∀ (q : List Char), '\n' ∉ q → q ≠ [] → ∀ acc,
      splitLinesAux acc q = [acc.reverse ++ q]
  | [], _, hq => absurd rfl hq
  | c :: cs, hnl, _ => by
      intro acc
      have hc : c ≠ '\n' := fun h => hnl (h ▸ List.mem_cons_self c cs)
      rw [splitLinesAux_cons_ne acc cs c hc]
      rcases cs with _ | ⟨c', cs'⟩
      · simp [splitLinesAux]
      · have hnl' : '\n' ∉ c' :: cs' := fun h => hnl (List.mem_cons_of_mem c h)
        rw [splitLinesAux_no_newline (c' :: cs') hnl' (by simp) (c :: acc)]
        simp

theorem splitLines_no_newline (q : List Char) (hnl : '\n' ∉ q) (hq : q ≠ []) :
    splitLines q = [q] := by
  rw [splitLines, splitLinesAux_no_newline q hnl hq []]
  rfl

/-! ## Lemmas about the monitor tick -/

theorem tick_unchanged (c : List Char) (m : Nat) (s : MState)
    (h1 : c.length = s.lastSize) (h2 : m = s.lastMtime) :
    tick c m s = ([], s) := by
  simp [tick, h1, h2]

theorem tick_changed (c : List Char) (m : Nat) (s : MState)
    (h : ¬(c.length = s.lastSize ∧ m = s.lastMtime)) :
    tick c m s = (splitLines (c.drop s.pos), ⟨c.length, m, max s.pos c.length⟩) := by
  simp [tick, h]

theorem runTicks_cumObs (chunks : List (List Char))
    (hend : ∀ ch ∈ chunks, ch ≠ [] → endsNl ch = true) :
    ∀ (acc : List Char) (t : Nat),
      runTicks ⟨acc.length, t, acc.length⟩ (cumObs acc (t + 1) chunks)
        = splitLines chunks.flatten := by
  induction chunks with
  | nil => intro acc t; simp [cumObs, runTicks, splitLines, splitLinesAux]
  | cons ch rest ih =>
    intro acc t
    have hne : ¬((acc ++ ch).length = (⟨acc.length, t, acc.length⟩ : MState).lastSize
        ∧ t + 1 = (⟨acc.length, t, acc.length⟩ : MState).lastMtime) := by
      rintro ⟨-, h2⟩
      exact Nat.succ_ne_self t h2
    have hdrop : (acc ++ ch).drop acc.length = ch := List.drop_left acc ch
    have hmax : max acc.length (acc ++ ch).length = (acc ++ ch).length :=
      Nat.max_eq_right (by simp)
    simp only [cumObs, runTicks, tick_changed _ _ _ hne, hdrop, hmax]
    have ih' := ih (fun x hx => hend x (List.mem_cons_of_mem ch hx)) (acc ++ ch) (t + 1)
    rw [ih']
    by_cases hch : ch = []
    · subst hch
      simp [splitLines, splitLinesAux]
    · rw [List.flatten_cons, splitLines_append ch rest.flatten (hend ch (by simp) hch)]

/-! ## C1: delivery across growth -/

/-- C1, counterexample. The claim says every complete appended line is
delivered exactly once regardless of how appends are chunked across poll
ticks. When an append ends mid-line, the code advances
`current_position` past the partial fragment, so the complete line
"abc\n" of the final file is handed to line processing as the two
fragments "ab" and "c\n" and never as itself: it is delivered zero
times, not once. -/
theorem monitor_chunk_split_loses_line :
    runTicks ⟨0, 0, 0⟩ (cumObs [] 1 [['a', 'b'], ['c', '\n']])
      = [['a', 'b'], ['c', '\n']]
    ∧ ['a', 'b', 'c', '\n'] ∉ runTicks ⟨0, 0, 0⟩ (cumObs [] 1 [['a', 'b'], ['c', '\n']]) := by
  decide

/-- C1, amended. When every observed append ends at a line boundary, the
monitor delivers every complete line exactly once: over any chunk
sequence whose nonempty chunks end with a newline, the concatenation of
the lines delivered by the successive ticks equals the line split of the
whole final content; and a tick that observes an unchanged size and
mtime reads nothing and delivers nothing. -/
theorem monitor_lineAligned_exactly_once :
    (∀ (chunks : List (List Char)),
        (∀ ch ∈ chunks, ch ≠ [] → endsNl ch = true) →
        runTicks ⟨0, 0, 0⟩ (cumObs [] 1 chunks) = splitLines chunks.flatten)
    ∧ (∀ (c : List Char) (m : Nat) (s : MState),
        c.length = s.lastSize → m = s.lastMtime → tick c m s = ([], s)) := by
  constructor
  · intro chunks hend
    exact runTicks_cumObs chunks hend [] 0
  · intro c m s h1 h2
    exact tick_unchanged c m s h1 h2

/-- C1, witness: two line-aligned appends are delivered exactly once
each, and re-polling with unchanged size and mtime delivers nothing. -/
theorem monitor_lineAligned_exactly_once_witness :
    runTicks ⟨0, 0, 0⟩ (cumObs [] 1 [['a', '\n'], ['b', '\n']])
      = [['a', '\n'], ['b', '\n']]
    ∧ tick ['a', '\n'] 0 ⟨2, 0, 2⟩ = ([], ⟨2, 0, 2⟩) := by
  constructor
  · have h := monitor_lineAligned_exactly_once.1 [['a', '\n'], ['b', '\n']] (by decide)
    rw [h]
    decide
  · exact monitor_lineAligned_exactly_once.2 ['a', '\n'] 0 ⟨2, 0, 2⟩ (by decide) (by decide)

/-! ## C2: partial-line handling -/

/-- C2, counterexample. The claim says a trailing partial line produces
no delivery, the offset is not advanced past it, and appending the
terminator later produces exactly one delivery of the completed line.
In the code `readlines` returns the partial fragment too: on a file
holding just "ab" the fragment "ab" is handed to line processing at
once, `current_position` advances to 2 (not 0), the later tick that sees
the appended terminator reads only "\n", and the completed line "ab\n"
is never delivered. -/
theorem monitor_partial_not_deferred :
    (tick ['a', 'b'] 1 ⟨0, 0, 0⟩).1 = [['a', 'b']]
    ∧ (tick ['a', 'b'] 1 ⟨0, 0, 0⟩).2.pos = 2
    ∧ (tick ['a', 'b', '\n'] 2 (tick ['a', 'b'] 1 ⟨0, 0, 0⟩).2).1 = [['\n']]
    ∧ ['a', 'b', '\n'] ∉
        (tick ['a', 'b'] 1 ⟨0, 0, 0⟩).1
          ++ (tick ['a', 'b', '\n'] 2 (tick ['a', 'b'] 1 ⟨0, 0, 0⟩).2).1 := by
  decide

/-- C2, amended. Reading does not stop at the last complete line: with
the cursor at the end of consumed content `a`, a tick that observes a
trailing partial line `q` delivers the fragment `q` immediately and
advances the offset past it to end of file; the tick that later observes
the appended terminator delivers only the bare "\n" line, and the
completed line `q ++ "\n"` is never delivered. -/
theorem monitor_partial_consumed (a q : List Char) (m0 m1 m2 : Nat)
    (hq : q ≠ []) (hnl : '\n' ∉ q) :
    (tick (a ++ q) m1 ⟨a.length, m0, a.length⟩).1 = [q]
    ∧ (tick (a ++ q) m1 ⟨a.length, m0, a.length⟩).2.pos = a.length + q.length
    ∧ (tick (a ++ q ++ ['\n']) m2 (tick (a ++ q) m1 ⟨a.length, m0, a.length⟩).2).1 = [['\n']]
    ∧ q ++ ['\n'] ∉
        (tick (a ++ q) m1 ⟨a.length, m0, a.length⟩).1
          ++ (tick (a ++ q ++ ['\n']) m2 (tick (a ++ q) m1 ⟨a.length, m0, a.length⟩).2).1 := by
  have hlen : (a ++ q).length ≠ a.length := by
    simp only [List.length_append]
    intro h
    exact hq (List.length_eq_zero.mp (by omega))
  have hne1 : ¬((a ++ q).length = (⟨a.length, m0, a.length⟩ : MState).lastSize
      ∧ m1 = (⟨a.length, m0, a.length⟩ : MState).lastMtime) := by
    rintro ⟨h1, -⟩
    exact hlen h1
  have ht1 : tick (a ++ q) m1 ⟨a.length, m0, a.length⟩
      = ([q], ⟨(a ++ q).length, m1, (a ++ q).length⟩) := by
    rw [tick_changed _ _ _ hne1, List.drop_left, splitLines_no_newline q hnl hq,
      Nat.max_eq_right (by simp)]
  have hne2 : ¬((a ++ q ++ ['\n']).length
        = (⟨(a ++ q).length, m1, (a ++ q).length⟩ : MState).lastSize
      ∧ m2 = (⟨(a ++ q).length, m1, (a ++ q).length⟩ : MState).lastMtime) := by
    rintro ⟨h1, -⟩
    simp [List.length_append] at h1
  have hassoc : a ++ q ++ ['\n'] = (a ++ q) ++ ['\n'] := rfl
  have ht2 : (tick (a ++ q ++ ['\n']) m2 ⟨(a ++ q).length, m1, (a ++ q).length⟩).1
      = [['\n']] := by
    rw [tick_changed _ _ _ hne2]
    rw [hassoc, List.drop_left]
    rfl
  refine ⟨by rw [ht1], by rw [ht1]; simp, by rw [ht1]; exact ht2, ?_⟩
  rw [ht1]
  simp only [List.cons_append, List.nil_append]
  rw [ht2]
  intro hmem
  rcases List.mem_cons.mp hmem with h | h
  · have := congrArg List.length h
    simp at this
  · rcases List.mem_singleton.mp h with h'
    have := congrArg List.length h'
    simp at this
    exact hq this

/-- C2, witness: with "x\n" consumed and the partial "ab" appended, the
fragment is delivered at once, the offset moves to 4, and the completed
line "ab\n" is never delivered. -/
theorem monitor_partial_consumed_witness :
    (tick ['x', '\n', 'a', 'b'] 1 ⟨2, 0, 2⟩).1 = [['a', 'b']]
    ∧ (tick ['x', '\n', 'a', 'b'] 1 ⟨2, 0, 2⟩).2.pos = 4
    ∧ (tick ['x', '\n', 'a', 'b', '\n'] 2 (tick ['x', '\n', 'a', 'b'] 1 ⟨2, 0, 2⟩).2).1
        = [['\n']]
    ∧ ['a', 'b', '\n'] ∉
        (tick ['x', '\n', 'a', 'b'] 1 ⟨2, 0, 2⟩).1
          ++ (tick ['x', '\n', 'a', 'b', '\n'] 2
                (tick ['x', '\n', 'a', 'b'] 1 ⟨2, 0, 2⟩).2).1 :=
  monitor_partial_consumed ['x', '\n'] ['a', 'b'] 0 1 2 (by decide) (by decide)

/-! ## C3: truncation handling -/

/-- C3, counterexample. The claim says a tick that observes a size
smaller than the read offset resets the offset to 0 before reading, so
fresh content is consumed from the start. With "ab\ncd\n" consumed
(offset 6), truncating the file to "z\n" and then growing it to
"z\nw\nv\n" yields two ticks that deliver nothing at all — in
particular the fresh line "z\n" written at the start of the rewritten
file is never delivered, because the offset was kept at 6. -/
theorem monitor_truncation_no_reset :
    runTicks ⟨6, 5, 6⟩ [(['z', '\n'], 7), (['z', '\n', 'w', '\n', 'v', '\n'], 8)] = []
    ∧ ['z', '\n'] ∉
        runTicks ⟨6, 5, 6⟩ [(['z', '\n'], 7), (['z', '\n', 'w', '\n', 'v', '\n'], 8)] := by
  decide

/-- C3, amended. On truncation the offset is not reset: a tick that
observes a size strictly smaller than the read offset delivers nothing
(the seek lands past end of file and `readlines` returns nothing) and
leaves the offset unchanged, so fresh content below the old offset is
never consumed from position 0. -/
theorem monitor_truncation_keeps_offset (c : List Char) (m : Nat) (s : MState)
    (h : c.length < s.pos) :
    (tick c m s).1 = [] ∧ (tick c m s).2.pos = s.pos := by
  by_cases hc : c.length = s.lastSize ∧ m = s.lastMtime
  · rw [tick_unchanged c m s hc.1 hc.2]
    exact ⟨rfl, rfl⟩
  · rw [tick_changed c m s hc]
    constructor
    · rw [List.drop_eq_nil_of_le (Nat.le_of_lt h)]
      rfl
    · exact Nat.max_eq_left (Nat.le_of_lt h)

/-- C3, witness: with offset 6 a truncated file of size 2 is read as
nothing and the offset stays 6. -/
theorem monitor_truncation_keeps_offset_witness :
    (tick ['z', '\n'] 7 ⟨6, 5, 6⟩).1 = [] ∧ (tick ['z', '\n'] 7 ⟨6, 5, 6⟩).2.pos = 6 :=
  monitor_truncation_keeps_offset ['z', '\n'] 7 ⟨6, 5, 6⟩ (by decide)

/-! ## C4: bootstrap offset -/

/-- C4, counterexample. The claim says that once an initial journal is
chosen, the read offset is set to its end so the existing lines are
never delivered to the event callback. That is what `JournalMonitor`
does, but `JournalManager._monitor_thread_func` leaves `last_size = 0`
after choosing the initial journal, so its first tick processes the file
from position 0 and delivers the historical line "a\n" to the event
callback. -/
theorem jm_bootstrap_replays_history :
    (jmTick ['a', '\n'] 5 jmBootstrap).1 = [['a', '\n']]
    ∧ (jmTick ['a', '\n'] 5 jmBootstrap).1 ≠ [] := by
  decide

/-- C4, amended. In `JournalMonitor` the bootstrap sets
`current_position` to the size of the initial file, so a tick that later
observes the initial content plus an appended suffix hands only the
lines of the suffix to line processing — in particular, with no appends
nothing is delivered and the historical lines are never replayed. (In
`JournalManager` this does not hold: its first tick replays the file
from position 0.) -/
theorem monitor_bootstrap_tails_only (c0 d : List Char) (m : Nat) :
    (tick (c0 ++ d) m (bootState c0)).1 = splitLines d := by
  by_cases h : (c0 ++ d).length = (bootState c0).lastSize ∧ m = (bootState c0).lastMtime
  · have hc0 : c0 = [] := by
      have h1 := h.1
      simp only [bootState, List.length_append] at h1
      exact List.length_eq_zero.mp (by omega)
    have hd : d = [] := by
      have h1 := h.1
      simp only [bootState, List.length_append] at h1
      exact List.length_eq_zero.mp (by omega)
    rw [tick_unchanged _ _ _ h.1 h.2, hd]
    rfl
  · rw [tick_changed _ _ _ h]
    show splitLines ((c0 ++ d).drop (bootState c0).pos) = splitLines d
    rw [show (bootState c0).pos = c0.length from rfl, List.drop_left]

/-! ## C5: locator ordering -/

theorem foldl_maxKey (key : JFile → Nat) (fs : List JFile) :
    ∀ b : JFile,
      (fs.foldl (fun b g => if key b < key g then g else b) b = b
        ∨ fs.foldl (fun b g => if key b < key g then g else b) b ∈ fs)
      ∧ key b ≤ key (fs.foldl (fun b g => if key b < key g then g else b) b)
      ∧ ∀ g ∈ fs, key g ≤ key (fs.foldl (fun b g => if key b < key g then g else b) b) := by
  induction fs with
  | nil => intro b; simp
  | cons g gs ih =>
    intro b
    simp only [List.foldl_cons]
    obtain ⟨hmem, hble, hall⟩ := ih (if key b < key g then g else b)
    have hb : key b ≤ key (if key b < key g then g else b) := by
      by_cases h : key b < key g
      · rw [if_pos h]; exact Nat.le_of_lt h
      · rw [if_neg h]
    have hg : key g ≤ key (if key b < key g then g else b) := by
      by_cases h : key b < key g
      · rw [if_pos h]
      · rw [if_neg h]; exact Nat.le_of_not_lt h
    refine ⟨?_, Nat.le_trans hb hble, ?_⟩
    · rcases hmem with h | h
      · rw [h]
        by_cases hc : key b < key g
        · rw [if_pos hc]; exact Or.inr (List.mem_cons_self g gs)
        · rw [if_neg hc]; exact Or.inl rfl
      · exact Or.inr (List.mem_cons_of_mem g h)
    · intro x hx
      rcases List.mem_cons.mp hx with h | h
      · rw [h]
        exact Nat.le_trans hg hble
      · exact hall x h

/-- C5, counterexample. The claim says the file returned as current is
the one with the greatest timestamp embedded in the filename. Both
`JournalMonitor._find_latest_journal` and
`JournalManager.get_latest_journal_file` sort by
`os.path.getmtime` instead: with one file of embedded timestamp 2 but
mtime 10 and another of embedded timestamp 1 but mtime 20, the locator
returns the file whose embedded timestamp is 1, not the greatest one. -/
theorem locator_ignores_embedded_timestamp :
    findLatestJournal [⟨2, 10⟩, ⟨1, 20⟩] = some ⟨1, 20⟩
    ∧ (findLatestJournal [⟨2, 10⟩, ⟨1, 20⟩]).map JFile.ts ≠ some 2 := by
  decide

/-- C5, amended. Which key orders the candidates depends on the
implementation: the two locators the claim cites —
`JournalMonitor._find_latest_journal` and
`JournalManager.get_latest_journal_file` — order by filesystem
modification time and return a member of the candidate list whose mtime
is maximal, not the file with the greatest embedded timestamp; the UI
monitor loop's own locator (`get_latest_journal_file` backed by
`list_sorted_journals` in `UI.py`), by contrast, does return a member
whose embedded filename timestamp is maximal on every tick, as does
`JournalManager.list_sorted_journals` during bootstrap. -/
theorem locator_selection_keys :
    (∀ (fs : List JFile) (f : JFile), findLatestJournal fs = some f →
        f ∈ fs ∧ ∀ g ∈ fs, g.mtime ≤ f.mtime)
    ∧ (∀ (fs : List JFile) (f : JFile), uiLatestJournal fs = some f →
        f ∈ fs ∧ ∀ g ∈ fs, g.ts ≤ f.ts) := by
  constructor
  · intro fs f h
    rcases fs with _ | ⟨b, gs⟩
    · exact absurd h (by simp [findLatestJournal])
    · have hf : gs.foldl (fun b g => if b.mtime < g.mtime then g else b) b = f :=
        Option.some_injective _ h
      obtain ⟨hmem, hble, hall⟩ := foldl_maxKey JFile.mtime gs b
      rw [hf] at hmem hble hall
      constructor
      · rcases hmem with h' | h'
        · exact h' ▸ List.mem_cons_self b gs
        · exact List.mem_cons_of_mem b h'
      · intro g hg
        rcases List.mem_cons.mp hg with h' | h'
        · exact h' ▸ hble
        · exact hall g h'
  · intro fs f h
    rcases fs with _ | ⟨b, gs⟩
    · exact absurd h (by simp [uiLatestJournal])
    · have hf : gs.foldl (fun b g => if b.ts < g.ts then g else b) b = f :=
        Option.some_injective _ h
      obtain ⟨hmem, hble, hall⟩ := foldl_maxKey JFile.ts gs b
      rw [hf] at hmem hble hall
      constructor
      · rcases hmem with h' | h'
        · exact h' ▸ List.mem_cons_self b gs
        · exact List.mem_cons_of_mem b h'
      · intro g hg
        rcases List.mem_cons.mp hg with h' | h'
        · exact h' ▸ hble
        · exact hall g h'

/-- C5, witness: on the two-file directory of the counterexample, the
monitor/manager locator returns the max-mtime member (embedded timestamp
1), while the UI locator returns the max-embedded-timestamp member
(embedded timestamp 2). -/
theorem locator_selection_keys_witness :
    ((⟨1, 20⟩ : JFile) ∈ [(⟨2, 10⟩ : JFile), ⟨1, 20⟩]
      ∧ (⟨2, 10⟩ : JFile).mtime ≤ (⟨1, 20⟩ : JFile).mtime)
    ∧ ((⟨2, 10⟩ : JFile) ∈ [(⟨2, 10⟩ : JFile), ⟨1, 20⟩]
      ∧ (⟨1, 20⟩ : JFile).ts ≤ (⟨2, 10⟩ : JFile).ts) := by
  have h1 := locator_selection_keys.1 [⟨2, 10⟩, ⟨1, 20⟩] ⟨1, 20⟩ (by decide)
  have h2 := locator_selection_keys.2 [⟨2, 10⟩, ⟨1, 20⟩] ⟨2, 10⟩ (by decide)
  exact ⟨⟨h1.1, h1.2 ⟨2, 10⟩ (by decide)⟩, ⟨h2.1, h2.2 ⟨1, 20⟩ (by decide)⟩⟩

/-! ## C6: identity updates -/

/-- C6, counterexample. The claim says an identity-establishing event
processed after startup overwrites the stored identity unconditionally,
even when a resolved identity is already held. In the code, with the
identity already resolved to "Alice": the rotation branch of
`JournalMonitor._monitor_loop` re-extracts the commander only when the
stored name is still "Unknown", so a new file whose LoadGame line names
"Bob" leaves the identity "Alice" (even though extraction would return
"Bob"); and `_process_journal_line` never touches the commander name at
all when a LoadGame event flows through the tailed stream. -/
theorem identity_later_event_does_not_win :
    rotationCommanderUpdate "Alice"
        [⟨false, true, false, some ⟨some "LoadGame", some "Bob", none, none, none⟩⟩]
      = "Alice"
    ∧ extractCommanderName
        [⟨false, true, false, some ⟨some "LoadGame", some "Bob", none, none, none⟩⟩]
      = "Bob"
    ∧ (processLine ⟨"Alice", "Sol", none⟩
        ⟨false, true, false, some ⟨some "LoadGame", some "Bob", none, none, none⟩⟩).1.commander
      = "Alice" := by
  decide

/-- C6, amended. After startup the stored identity changes only in the
rotation branch of the poll loop, never from the tailed event stream:
`_process_journal_line` leaves the commander name unchanged for every
line (identity-establishing or not, with or without callback failures);
the `JournalMonitor` (and UI) rotation branch keeps a resolved identity
unconditionally, re-extracting only when it is still "Unknown"; and the
`JournalManager` rotation branch keeps the stored identity whenever
extraction from the new file yields "Unknown". -/
theorem identity_update_only_on_rotation :
    (∀ (fails : Notif → Bool) (st : RState) (l : JLine),
        ((processLineF fails st l).1).commander = st.commander)
    ∧ (∀ (c : String) (ls : List JLine),
        c ≠ "Unknown" → rotationCommanderUpdate c ls = c)
    ∧ (∀ (c : String) (ls : List JLine),
        extractCommanderNameJM ls = "Unknown" → jmRotationCommanderUpdate c ls = c) := by
  refine ⟨?_, ?_, ?_⟩
  · intro fails st l
    unfold processLineF
    repeat' split
    all_goals rfl
  · intro c ls hc
    unfold rotationCommanderUpdate
    rw [if_neg hc]
  · intro c ls h
    unfold jmRotationCommanderUpdate
    simp [h]

/-- C6, witness: a LoadGame line for "Bob" flowing through line
processing leaves the resolved identity "Alice" unchanged, as does the
rotation branch; and a new file with no extractable name leaves the
`JournalManager` identity unchanged. -/
theorem identity_update_only_on_rotation_witness :
    ((processLineF (fun _ => false) ⟨"Alice", "Sol", none⟩
        ⟨false, true, false, some ⟨some "LoadGame", some "Bob", none, none, none⟩⟩).1).commander
      = "Alice"
    ∧ rotationCommanderUpdate "Alice" [] = "Alice"
    ∧ jmRotationCommanderUpdate "Alice" [] = "Alice" :=
  ⟨identity_update_only_on_rotation.1 (fun _ => false) ⟨"Alice", "Sol", none⟩
      ⟨false, true, false, some ⟨some "LoadGame", some "Bob", none, none, none⟩⟩,
    identity_update_only_on_rotation.2.1 "Alice" [] (by decide),
    identity_update_only_on_rotation.2.2 "Alice" [] (by decide)⟩

/-! ## C7: coordinate preservation -/

/-- C7, confirmed. For a location-changing event carrying a location
name: if the payload has no StarPos, `_process_journal_line` updates the
system name and leaves the previously stored coordinate unchanged; if a
3-element StarPos is present in the same record, both are updated
together. -/
theorem location_event_preserves_coordinate
    (st : RState) (l : JLine) (ev : Event) (t n : String)
    (hb : l.blank = false) (hp : l.parse = some ev) (he : ev.event = some t)
    (ht : t ≠ "") (hloc : isLocEvent t = true) (hs : ev.starSystem = some n) :
    (ev.starPos = none →
        (processLine st l).1 = ⟨st.commander, n, st.starPos⟩)
    ∧ ∀ xs : List Int, ev.starPos = some (.arr xs) → xs.length = 3 →
        (processLine st l).1 = ⟨st.commander, n, some xs⟩ := by
  constructor
  · intro hpos
    unfold processLine processLineF
    rw [hb, hp]
    simp only [Bool.false_eq_true, if_false]
    rw [he]
    simp only [if_neg ht, hloc, if_true, hs, hpos]
  · intro xs hpos hlen
    unfold processLine processLineF
    rw [hb, hp]
    simp only [Bool.false_eq_true, if_false]
    rw [he]
    simp only [if_neg ht, hloc, if_true, hs, hpos, hlen, if_true]

/-- C7, witness: from a state holding coordinate (9, 9, 9), a
name-only FSDJump line moves the system name to "Sol" and keeps the
coordinate, while a Location line carrying both updates both. -/
theorem location_event_preserves_coordinate_witness :
    (processLine ⟨"A", "Old", some [9, 9, 9]⟩
        ⟨false, false, true, some ⟨some "FSDJump", none, none, some "Sol", none⟩⟩).1
      = ⟨"A", "Sol", some [9, 9, 9]⟩
    ∧ (processLine ⟨"A", "Old", some [9, 9, 9]⟩
        ⟨false, false, true,
          some ⟨some "Location", none, none, some "Col", some (.arr [1, 2, 3])⟩⟩).1
      = ⟨"A", "Col", some [1, 2, 3]⟩ :=
  ⟨(location_event_preserves_coordinate ⟨"A", "Old", some [9, 9, 9]⟩
        ⟨false, false, true, some ⟨some "FSDJump", none, none, some "Sol", none⟩⟩
        ⟨some "FSDJump", none, none, some "Sol", none⟩ "FSDJump" "Sol"
        rfl rfl rfl (by decide) (by decide) rfl).1 rfl,
    (location_event_preserves_coordinate ⟨"A", "Old", some [9, 9, 9]⟩
        ⟨false, false, true,
          some ⟨some "Location", none, none, some "Col", some (.arr [1, 2, 3])⟩⟩
        ⟨some "Location", none, none, some "Col", some (.arr [1, 2, 3])⟩ "Location" "Col"
        rfl rfl rfl (by decide) (by decide) rfl).2 [1, 2, 3] rfl rfl⟩

/-! ## C8: callback failure isolation -/

/-- C8, counterexample. The claim says a callback that raises during one
notification does not prevent the remaining notifications of the same
tick — in particular the raw-event notification for the same line. In
`_process_journal_line` the exception is caught at function level, so
when the "system" callback for an FSDJump line raises, the raw "event"
callback for that same line is never invoked (without the failure both
would be). -/
theorem callback_failure_skips_raw_notif :
    (processLineF (fun n => match n with | .system _ _ _ => true | .raw _ _ => false)
        ⟨"A", "Old", none⟩
        ⟨false, false, true, some ⟨some "FSDJump", none, none, some "Sol", none⟩⟩).2
      = [.system "Sol" none "FSDJump"]
    ∧ Notif.raw "FSDJump" ⟨some "FSDJump", none, none, some "Sol", none⟩
        ∉ (processLineF (fun n => match n with | .system _ _ _ => true | .raw _ _ => false)
            ⟨"A", "Old", none⟩
            ⟨false, false, true, some ⟨some "FSDJump", none, none, some "Sol", none⟩⟩).2
    ∧ (processLine ⟨"A", "Old", none⟩
        ⟨false, false, true, some ⟨some "FSDJump", none, none, some "Sol", none⟩⟩).2
      = [.system "Sol" none "FSDJump",
         .raw "FSDJump" ⟨some "FSDJump", none, none, some "Sol", none⟩] := by
  decide

/-- C8, amended. A raising callback is isolated per line, not per
notification: the state updates of the failing line still happen (the
assignments precede the callbacks, so the resulting state is the same as
with no failure), and because the exception is caught inside
`_process_journal_line`, processing of the remaining lines of the tick
continues unaffected — running a tick's lines splits as the first part
followed by the rest from the intermediate state, whatever the failing
callbacks are. -/
theorem callback_failure_isolated_per_line :
    (∀ (fails : Notif → Bool) (st : RState) (l : JLine),
        (processLineF fails st l).1 = (processLine st l).1)
    ∧ (∀ (fails : Notif → Bool) (st : RState) (xs ys : List JLine),
        processAllF fails st (xs ++ ys)
          = ((processAllF fails (processAllF fails st xs).1 ys).1,
             (processAllF fails st xs).2
               ++ (processAllF fails (processAllF fails st xs).1 ys).2)) := by
  constructor
  · intro fails st l
    unfold processLine processLineF
    repeat' split
    all_goals rfl
  · intro fails st xs ys
    induction xs generalizing st with
    | nil => simp [processAllF]
    | cons l ls ih =>
      simp only [List.cons_append, processAllF, List.append_eq, ih, List.append_assoc]

/-- C8, witness: with the failing "system" callback of the
counterexample line, the state still ends up with system name "Sol", and
a two-line tick still processes its second line. -/
theorem callback_failure_isolated_per_line_witness :
    (processLineF (fun n => match n with | .system _ _ _ => true | .raw _ _ => false)
        ⟨"A", "Old", none⟩
        ⟨false, false, true, some ⟨some "FSDJump", none, none, some "Sol", none⟩⟩).1
      = (processLine ⟨"A", "Old", none⟩
          ⟨false, false, true, some ⟨some "FSDJump", none, none, some "Sol", none⟩⟩).1
    ∧ processAllF (fun n => match n with | .system _ _ _ => true | .raw _ _ => false)
        ⟨"A", "Old", none⟩
        ([⟨false, false, true, some ⟨some "FSDJump", none, none, some "Sol", none⟩⟩]
          ++ [⟨false, false, false, some ⟨some "Scan", none, none, none, none⟩⟩])
      = ((processAllF (fun n => match n with | .system _ _ _ => true | .raw _ _ => false)
            (processAllF (fun n => match n with | .system _ _ _ => true | .raw _ _ => false)
              ⟨"A", "Old", none⟩
              [⟨false, false, true, some ⟨some "FSDJump", none, none, some "Sol", none⟩⟩]).1
            [⟨false, false, false, some ⟨some "Scan", none, none, none, none⟩⟩]).1,
         (processAllF (fun n => match n with | .system _ _ _ => true | .raw _ _ => false)
            ⟨"A", "Old", none⟩
            [⟨false, false, true, some ⟨some "FSDJump", none, none, some "Sol", none⟩⟩]).2
           ++ (processAllF (fun n => match n with | .system _ _ _ => true | .raw _ _ => false)
                (processAllF (fun n => match n with | .system _ _ _ => true | .raw _ _ => false)
                  ⟨"A", "Old", none⟩
                  [⟨false, false, true, some ⟨some "FSDJump", none, none, some "Sol", none⟩⟩]).1
                [⟨false, false, false, some ⟨some "Scan", none, none, none, none⟩⟩]).2) :=
  ⟨callback_failure_isolated_per_line.1
      (fun n => match n with | .system _ _ _ => true | .raw _ _ => false)
      ⟨"A", "Old", none⟩
      ⟨false, false, true, some ⟨some "FSDJump", none, none, some "Sol", none⟩⟩,
    callback_failure_isolated_per_line.2
      (fun n => match n with | .system _ _ _ => true | .raw _ _ => false)
      ⟨"A", "Old", none⟩
      [⟨false, false, true, some ⟨some "FSDJump", none, none, some "Sol", none⟩⟩]
      [⟨false, false, false, some ⟨some "Scan", none, none, none, none⟩⟩]⟩

/-! ## C9: asymmetric bootstrap seeding -/

theorem extractSystemInfoAux_last (l : JLine) (ev : Event) (s : String)
    (xs : List Int) (hl : l.hasLocTag = true) (hp : l.parse = some ev)
    (hs : ev.starSystem = some s) (hpos : ev.starPos = some (.arr xs))
    (hlen : xs.length = 3) :
    ∀ (pre : List JLine), (∀ p ∈ pre, p.hasLocTag = true → p.parse.isSome) →
      ∀ (sys : Option String) (pos : Option (List Int)),
        extractSystemInfoAux sys pos (pre ++ [l]) = (some s, some xs) := by
  intro pre
  induction pre with
  | nil =>
    intro _ sys pos
    simp only [List.nil_append, extractSystemInfoAux, hl, if_true, hp, hs, hpos, hlen]
  | cons p ps ih =>
    intro hpre sys pos
    simp only [List.cons_append, extractSystemInfoAux]
    by_cases hloc : p.hasLocTag = true
    · rcases hq : p.parse with _ | ev'
      · exact absurd (hq ▸ hpre p (List.mem_cons_self p ps) hloc) (by simp)
      · simp only [hloc, if_true, hq]
        exact ih (fun x hx => hpre x (List.mem_cons_of_mem p hx)) _ _
    · simp only [hloc, if_false]
      exact ih (fun x hx => hpre x (List.mem_cons_of_mem p hx)) sys pos

/-- C9, confirmed. Bootstrap seeding is asymmetric:
`_extract_commander_name` returns the name carried by the first
identity-tagged line of the file (any later identity lines are ignored),
while `_extract_system_info` keeps overwriting through the end of the
file, so it returns the values of the last location-tagged line. -/
theorem bootstrap_first_identity_last_location :
    (∀ (pre : List JLine) (l : JLine) (post : List JLine) (ev : Event) (nm : String),
        (∀ p ∈ pre, p.hasIdTag = false) → l.hasIdTag = true →
        l.parse = some ev → evFirstName ev = some nm →
        extractCommanderName (pre ++ l :: post) = nm)
    ∧ (∀ (pre : List JLine) (l : JLine) (ev : Event) (s : String) (xs : List Int),
        (∀ p ∈ pre, p.hasLocTag = true → p.parse.isSome) →
        l.hasLocTag = true → l.parse = some ev → ev.starSystem = some s →
        ev.starPos = some (.arr xs) → xs.length = 3 →
        extractSystemInfo (pre ++ [l]) = (some s, some xs)) := by
  constructor
  · intro pre
    induction pre with
    | nil =>
      intro l post ev nm _ hid hp hnm
      simp only [List.nil_append, extractCommanderName, hid, if_true, hp]
      unfold evFirstName at hnm
      rcases hc : ev.commander with _ | c
      · rw [hc] at hnm
        rcases hn : ev.name with _ | n
        · rw [hn] at hnm
          exact absurd hnm (by simp)
        · rw [hn] at hnm
          simp only [Option.some_inj] at hnm
          simp [hn, hnm]
      · rw [hc] at hnm
        simp only [Option.some_inj] at hnm
        simp [hnm]
    | cons p ps ih =>
      intro l post ev nm hpre hid hp hnm
      have hpid : p.hasIdTag = false := hpre p (List.mem_cons_self p ps)
      simp only [List.cons_append, extractCommanderName, hpid, Bool.false_eq_true, if_false]
      exact ih l post ev nm (fun x hx => hpre x (List.mem_cons_of_mem p hx)) hid hp hnm
  · intro pre l ev s xs hpre hl hp hs hpos hlen
    exact extractSystemInfoAux_last l ev s xs hl hp hs hpos hlen pre hpre none none

/-- C9, witness: with two identity lines the first one ("Alice") wins,
while with two location lines the last one ("Beta", (4, 5, 6)) wins. -/
theorem bootstrap_first_identity_last_location_witness :
    extractCommanderName
        [⟨false, true, false, some ⟨some "LoadGame", some "Alice", none, none, none⟩⟩,
         ⟨false, true, false, some ⟨some "LoadGame", some "Bob", none, none, none⟩⟩]
      = "Alice"
    ∧ extractSystemInfo
        [⟨false, false, true,
            some ⟨some "FSDJump", none, none, some "Alpha", some (.arr [1, 2, 3])⟩⟩,
         ⟨false, false, true,
            some ⟨some "FSDJump", none, none, some "Beta", some (.arr [4, 5, 6])⟩⟩]
      = (some "Beta", some [4, 5, 6]) :=
  ⟨bootstrap_first_identity_last_location.1 []
      ⟨false, true, false, some ⟨some "LoadGame", some "Alice", none, none, none⟩⟩
      [⟨false, true, false, some ⟨some "LoadGame", some "Bob", none, none, none⟩⟩]
      ⟨some "LoadGame", some "Alice", none, none, none⟩ "Alice"
      (by intro p hp; simp at hp) rfl rfl rfl,
    bootstrap_first_identity_last_location.2
      [⟨false, false, true,
          some ⟨some "FSDJump", none, none, some "Alpha", some (.arr [1, 2, 3])⟩⟩]
      ⟨false, false, true,
          some ⟨some "FSDJump", none, none, some "Beta", some (.arr [4, 5, 6])⟩⟩
      ⟨some "FSDJump", none, none, some "Beta", some (.arr [4, 5, 6])⟩ "Beta" [4, 5, 6]
      (by intro p hp _; simp at hp; rw [hp]; rfl) rfl rfl rfl rfl rfl⟩

/-! ## C10: the unbound-coords failure path -/

/-- C10, confirmed. For a file whose first location-tagged line parses
but carries no StarPos, `App.find_latest_journal_and_pos` evaluates the
local `coords` before any assignment; the resulting `NameError` escapes
the inner `except json.JSONDecodeError`, is caught by the outer handler,
and the function returns `(None, None)` — discarding the system name the
same line may already have provided and ignoring the rest of the file. -/
theorem fljp_unbound_coords_returns_none
    (pre : List JLine) (l : JLine) (post : List JLine) (ev : Event)
    (hpre : ∀ p ∈ pre, p.hasLocTag = false) (hl : l.hasLocTag = true)
    (hp : l.parse = some ev) (hpos : ev.starPos = none) :
    findLatestJournalAndPos (pre ++ l :: post) = (none, none) := by
  unfold findLatestJournalAndPos
  induction pre with
  | nil =>
    simp only [List.nil_append, fljpAux, hl, if_true, hp, hpos]
  | cons p ps ih =>
    have hploc : p.hasLocTag = false := hpre p (List.mem_cons_self p ps)
    simp only [List.cons_append, fljpAux, hploc, Bool.false_eq_true, if_false]
    exact ih (fun x hx => hpre x (List.mem_cons_of_mem p hx))

/-- C10, witness: a file whose first (and only tagged) FSDJump line
names "Sol" but has no StarPos yields `(none, none)`, even though a
later line carries both a name and a coordinate. -/
theorem fljp_unbound_coords_returns_none_witness :
    findLatestJournalAndPos
        [⟨false, false, true, some ⟨some "FSDJump", none, none, some "Sol", none⟩⟩,
         ⟨false, false, true,
            some ⟨some "FSDJump", none, none, some "Beta", some (.arr [4, 5, 6])⟩⟩]
      = (none, none) :=
  fljp_unbound_coords_returns_none []
    ⟨false, false, true, some ⟨some "FSDJump", none, none, some "Sol", none⟩⟩
    [⟨false, false, true,
        some ⟨some "FSDJump", none, none, some "Beta", some (.arr [4, 5, 6])⟩⟩]
    ⟨some "FSDJump", none, none, some "Sol", none⟩
    (by intro p hp; simp at hp) rfl rfl rfl

end EDRH
